import Mathlib

/-!
Shallow embedding of the HTTP file server (two variants: the full
GET/PUT/DELETE server and the read-only GET server), covering the path
resolver, the verb dispatcher and the response-shaping logic.

JavaScript strings are modelled as `List Char`; request and file bodies
as `List Nat` (byte values).  Filesystem state is a partial map from
absolute path strings to nodes.  Asynchronous I/O outcomes that are not
determined by the snapshot (read races, write failures, body-stream
errors) enter the model as explicit boolean/option parameters mirroring
the callback error arguments of the source.
-/

namespace FileServer

/-- A JavaScript string, modelled as its list of characters. -/
abbrev Str := List Char

/-- Characters of a Lean string literal (used to transcribe the
string literals of the source). -/
def asciiStr (s : String) : Str := s.data

/-- Bytes of an ASCII string literal (`Buffer.from(s, "utf8")` for the
ASCII-only literals appearing in the source). -/
def asciiBytes (s : String) : List Nat := s.data.map Char.toNat

/-! ### decodeURIComponent -/

/-- Value of one hex digit, as in a `%XX` escape. -/
def hexVal (c : Char) : Option Nat :=
  if '0' ≤ c ∧ c ≤ '9' then some (c.toNat - 48)
  else if 'a' ≤ c ∧ c ≤ 'f' then some (c.toNat - 87)
  else if 'A' ≤ c ∧ c ≤ 'F' then some (c.toNat - 55)
  else none

/-- A UTF-8 continuation byte. -/
def contByte (n : Nat) : Bool := decide (0x80 ≤ n) && decide (n < 0xC0)

/-- Valid second byte of a 3-byte UTF-8 sequence with lead byte `v`
(the `E0`/`ED` special cases exclude overlong forms and surrogates,
as ECMA-262 `decodeURIComponent` does). -/
def cont3Ok (v w : Nat) : Bool :=
  if v = 0xE0 then decide (0xA0 ≤ w) && decide (w ≤ 0xBF)
  else if v = 0xED then decide (0x80 ≤ w) && decide (w ≤ 0x9F)
  else contByte w

/-- Valid second byte of a 4-byte UTF-8 sequence with lead byte `v`. -/
def cont4Ok (v w : Nat) : Bool :=
  if v = 0xF0 then decide (0x90 ≤ w) && decide (w ≤ 0xBF)
  else if v = 0xF4 then decide (0x80 ≤ w) && decide (w ≤ 0x8F)
  else contByte w

/-- Model of `decodeURIComponent`: percent-escapes are decoded byte-wise and the
byte groups UTF-8-decoded (strictly: bad hex digits, truncated escapes,
bad lead bytes, bad continuation bytes, overlong forms and surrogate
code points all throw, i.e. return `none`); other characters pass
through.  Code points above `0xFFFF` are kept as a single scalar
(JavaScript would store a surrogate pair; no later step distinguishes
the two representations). -/
def decodePct : Str → Option Str
  | [] => some []
  | '%' :: rest =>
    match rest with
    | h1 :: h2 :: rest1 =>
      match hexVal h1, hexVal h2 with
      | some a, some b =>
        let v := 16 * a + b
        if v < 0x80 then
          match decodePct rest1 with
          | some out => some (Char.ofNat v :: out)
          | none => none
        else if 0xC2 ≤ v ∧ v ≤ 0xDF then
          match rest1 with
          | '%' :: g1 :: g2 :: rest2 =>
            match hexVal g1, hexVal g2 with
            | some c, some d =>
              let w := 16 * c + d
              if contByte w then
                match decodePct rest2 with
                | some out => some (Char.ofNat ((v - 0xC0) * 0x40 + (w - 0x80)) :: out)
                | none => none
              else none
            | _, _ => none
          | _ => none
        else if 0xE0 ≤ v ∧ v ≤ 0xEF then
          match rest1 with
          | '%' :: g1 :: g2 :: '%' :: k1 :: k2 :: rest3 =>
            match hexVal g1, hexVal g2, hexVal k1, hexVal k2 with
            | some c, some d, some e, some f =>
              let w := 16 * c + d
              let x := 16 * e + f
              if cont3Ok v w && contByte x then
                match decodePct rest3 with
                | some out =>
                    some (Char.ofNat ((v - 0xE0) * 0x1000 + (w - 0x80) * 0x40 + (x - 0x80)) :: out)
                | none => none
              else none
            | _, _, _, _ => none
          | _ => none
        else if 0xF0 ≤ v ∧ v ≤ 0xF4 then
          match rest1 with
          | '%' :: g1 :: g2 :: '%' :: k1 :: k2 :: '%' :: m1 :: m2 :: rest4 =>
            match hexVal g1, hexVal g2, hexVal k1, hexVal k2, hexVal m1, hexVal m2 with
            | some c, some d, some e, some f, some g, some h =>
              let w := 16 * c + d
              let x := 16 * e + f
              let y := 16 * g + h
              if cont4Ok v w && contByte x && contByte y then
                match decodePct rest4 with
                | some out =>
                    some (Char.ofNat
                      ((v - 0xF0) * 0x40000 + (w - 0x80) * 0x1000 +
                        (x - 0x80) * 0x40 + (y - 0x80)) :: out)
                | none => none
              else none
            | _, _, _, _, _, _ => none
          | _ => none
        else none
      | _, _ => none
    | _ => none
  | c :: rest =>
    match decodePct rest with
    | some out => some (c :: out)
    | none => none

/-! ### String.prototype.trim -/

/-- Whitespace as trimmed by `String.prototype.trim` (the ASCII white
space characters plus NBSP and the BOM; other Unicode white space does
not occur in HTTP request targets). -/
def isJsWs (c : Char) : Bool :=
  c = ' ' ∨ c = '\t' ∨ c = '\n' ∨ c = '\r' ∨
  c = Char.ofNat 11 ∨ c = Char.ofNat 12 ∨ c = Char.ofNat 0xA0 ∨ c = Char.ofNat 0xFEFF

/-- Model of `s.trim()`. -/
def jsTrim (s : Str) : Str :=
  ((s.dropWhile isJsWs).reverse.dropWhile isJsWs).reverse

/-! ### path.resolve (POSIX) -/

/-- Split a string at every `'/'` (as `path.resolve` segments the joined
path). -/
def splitSlash : Str → List Str
  | [] => [[]]
  | c :: rest =>
    if c = '/' then [] :: splitSlash rest
    else
      match splitSlash rest with
      | [] => [[c]]
      | s :: ss => (c :: s) :: ss

/-- One step of `path.resolve`'s normalization over an absolute path:
empty and `.` segments are skipped, `..` pops (and is dropped at the
root, since the base is absolute), anything else is pushed. -/
def normStep (stack : List Str) (seg : Str) : List Str :=
  if seg = [] ∨ seg = ['.'] then stack
  else if seg = ['.', '.'] then stack.dropLast
  else stack ++ [seg]

/-- Normalize a segment sequence (the canonicalization pass of
`path.resolve` for an absolute joined path). -/
def normalizeSegs (segs : List Str) : List Str := segs.foldl normStep []

/-- Print a segment list as an absolute path string (`[] ↦ "/"`). -/
def joinSegs : List Str → Str
  | [] => []
  | s :: rest => '/' :: s ++ joinSegs rest

/-- Absolute path string of a canonical segment list; the empty list is
the filesystem root `"/"`. -/
def joinAbs (segs : List Str) : Str :=
  if segs = [] then ['/'] else joinSegs segs

/-- Model of `path.resolve(base, rel)` for an absolute `base` (given as its
canonical segment list) and a relative `rel` (the source always passes
`"." + path`, which never begins with `'/'`): join with a separator and
canonicalize. -/
def resolvePath (base : List Str) (rel : Str) : Str :=
  joinAbs (normalizeSegs (base ++ splitSlash rel))

/-- Segments of an absolute path string (inverse of `joinAbs` on
canonical non-root paths). -/
def pathSegs (a : Str) : List Str := splitSlash (a.drop 1)

/-- Predicate: `a` is the Served Root itself or lies strictly beneath it, segment
wise — the confinement notion of the specification (note the separator:
a sibling such as `public-evil` is *not* a descendant of `public`). -/
def isDescendant (root : List Str) (a : Str) : Bool :=
  root.isPrefixOf (pathSegs a)

/-! ### The path resolver (`parseAndResolvePath`, src/unnamed/part_000) -/

/-- Result object of `parseAndResolvePath`: `{ absPath?: string;
status?: number }`. -/
structure ResolveResult where
  absPath : Option Str
  status : Option Nat
deriving DecidableEq, Repr

/-- Model of `parseAndResolvePath(rawUrl)` of the full server, with the Served
Root `PUBLIC_DIR` abstracted as its canonical segment list `root`:
strip the query string, trim, percent-decode (failure ⇒ status 400),
substitute `/index.html` for exactly `/`, resolve `"." + path` against
the root, and accept only results whose *string* starts with the root's
string (else status 403). -/
def parseAndResolvePath (root : List Str) (rawUrl : Str) : ResolveResult :=
  let pathname := jsTrim (rawUrl.takeWhile (fun c => c ≠ '?'))
  match decodePct pathname with
  | none => ⟨none, some 400⟩
  | some decodedPath =>
    let normalized := if decodedPath = ['/'] then asciiStr "/index.html" else decodedPath
    let absPath := resolvePath root ('.' :: normalized)
    if (joinAbs root).isPrefixOf absPath then ⟨some absPath, none⟩
    else ⟨none, some 403⟩

/-! ### path.extname / path.dirname (on the resolver's absolute outputs) -/

/-- The basename of a path: the part after the last `'/'` (the whole
string when it has no `'/'`). -/
def basenameOf (p : Str) : Str :=
  (p.reverse.takeWhile (fun c => c ≠ '/')).reverse

/-- Extension of a basename: from the last `'.'` on, empty when there is
no dot or the only dot is the leading character (`path.extname`'s rule
for dotfiles). -/
def extOfBase (base : Str) : Str :=
  let revBase := base.reverse
  let pre := revBase.takeWhile (fun c => c ≠ '.')
  if pre.length = revBase.length then []
  else if pre.length + 1 = revBase.length then []
  else '.' :: pre.reverse

/-- Model of `path.extname(p)`. -/
def extname (p : Str) : Str := extOfBase (basenameOf p)

/-- Model of `guessContentType(filePath)`: the static suffix table of the source. -/
def guessContentType (filePath : Str) : Str :=
  let ext := (extname filePath).map Char.toLower
  if ext = asciiStr ".html" then asciiStr "text/html; charset=utf-8"
  else if ext = asciiStr ".css" then asciiStr "text/css; charset=utf-8"
  else if ext = asciiStr ".js" then asciiStr "text/javascript; charset=utf-8"
  else if ext = asciiStr ".json" then asciiStr "application/json; charset=utf-8"
  else if ext = asciiStr ".txt" then asciiStr "text/plain; charset=utf-8"
  else if ext = asciiStr ".png" then asciiStr "image/png"
  else if ext = asciiStr ".jpg" then asciiStr "image/jpeg"
  else if ext = asciiStr ".jpeg" then asciiStr "image/jpeg"
  else if ext = asciiStr ".gif" then asciiStr "image/gif"
  else if ext = asciiStr ".svg" then asciiStr "image/svg+xml"
  else asciiStr "application/octet-stream"

/-- Model of `path.dirname(p)` for the absolute paths produced by the resolver:
everything before the last `'/'`, or `"/"` when that is empty. -/
def dirname (p : Str) : Str :=
  let cut := ((p.reverse.dropWhile (fun c => c ≠ '/')).reverse).dropLast
  if cut = [] then ['/'] else cut

/-! ### Filesystem model -/

/-- A filesystem node: a regular file with its byte content, or a
directory. -/
inductive FsNode where
  | file (data : List Nat)
  | dir
deriving DecidableEq

/-- Filesystem snapshot: a partial map from absolute path strings to
nodes. -/
def FS : Type := Str → Option FsNode

/-- True when `fs.stat(p)` succeeded and `st.isFile()`. -/
def isFileAt (fs : FS) (p : Str) : Bool :=
  match fs p with
  | some (.file _) => true
  | _ => false

/-- True when `fs.stat(p)` succeeded and `st.isDirectory()`. -/
def isDirAt (fs : FS) (p : Str) : Bool :=
  match fs p with
  | some .dir => true
  | _ => false

/-- Effect of a successful `fs.writeFile(p, d)`. -/
def fsWrite (fs : FS) (p : Str) (d : List Nat) : FS :=
  fun q => if q = p then some (.file d) else fs q

/-- Effect of a successful `fs.unlink(p)`. -/
def fsRemove (fs : FS) (p : Str) : FS :=
  fun q => if q = p then none else fs q

/-- Outcome of `fs.unlink(p)` against the snapshot: removing an existing
regular file succeeds, a missing path fails with `ENOENT`, and a
directory target is the modelled representative of "any other removal
failure" (`unlink` on a directory fails with an error whose code is not
`ENOENT`). -/
inductive UnlinkResult where
  | ok
  | enoent
  | otherErr
deriving DecidableEq

/-- Outcome of `fs.unlink` on the snapshot. -/
def unlinkOutcome (fs : FS) (p : Str) : UnlinkResult :=
  match fs p with
  | some (.file _) => .ok
  | some .dir => .otherErr
  | none => .enoent

/-! ### Responses and `send` -/

/-- An HTTP response as shaped by the source: status code, the header
mapping set on the `ServerResponse`, and the body bytes handed to
`res.end`. -/
structure Response where
  status : Nat
  headers : List (Str × Str)
  body : List Nat
deriving DecidableEq

/-- First value set for header `k` (all call sites use each key once). -/
def getHeader (r : Response) (k : Str) : Option Str :=
  (r.headers.find? (fun h => decide (h.1 = k))).map (fun h => h.2)

/-- Model of `if (!(key in headers)) headers[key] = val` — the defaulting step of
the full variant's `send`. -/
def withDefault (headers : List (Str × Str)) (key val : Str) : List (Str × Str) :=
  if headers.any (fun h => h.1 = key) then headers else headers ++ [(key, val)]

/-- Model of `send` of the full server (src/unnamed/part_000): sets `Date` (the
current time, threaded in as `now`) and `Connection: close`, defaults
`Content-Length` to the body byte length and then `Content-Type` to
`text/plain; charset=utf-8` when absent, and ends the response with the
body buffer. -/
def send (now : Str) (status : Nat) (headers : List (Str × Str)) (body : List Nat) : Response :=
  let hs := withDefault headers (asciiStr "Content-Length") (Nat.toDigits 10 body.length)
  let hs2 := withDefault hs (asciiStr "Content-Type") (asciiStr "text/plain; charset=utf-8")
  ⟨status, (asciiStr "Date", now) :: (asciiStr "Connection", asciiStr "close") :: hs2, body⟩

/-- Model of `send` of the read-only server (src/src/index.ts): sets `Date` and
`Connection: close` and the given headers, with no defaulting of
`Content-Length` or `Content-Type`. -/
def sendRO (now : Str) (status : Nat) (headers : List (Str × Str)) (body : List Nat) : Response :=
  ⟨status, (asciiStr "Date", now) :: (asciiStr "Connection", asciiStr "close") :: headers, body⟩

/-- Header object `"Content-Type": "text/plain; charset=utf-8"` that
every error-path `send` call passes. -/
def ctPlain : List (Str × Str) :=
  [(asciiStr "Content-Type", asciiStr "text/plain; charset=utf-8")]

/-! ### Verb handlers (src/unnamed/part_000) -/

/-- Model of `handleGet(absPath, res)`: stat failure or a non-file node is 404; a
read failure after a successful stat (a race, injected as
`readOk = false`) is 500; otherwise 200 with the file bytes, the guessed
`Content-Type` and an explicit `Content-Length`. -/
def handleGet (fs : FS) (now : Str) (absPath : Str) (readOk : Bool) : Response :=
  match fs absPath with
  | some (.file data) =>
    if readOk then
      send now 200
        [(asciiStr "Content-Type", guessContentType absPath),
         (asciiStr "Content-Length", Nat.toDigits 10 data.length)] data
    else send now 500 ctPlain (asciiBytes "Internal Server Error\n")
  | _ => send now 404 ctPlain (asciiBytes "Not Found\n")

/-- Model of `handlePut(absPath, req, res)`: missing or non-directory parent is
404 with no write; then `existed` is recorded from a stat of the target;
a body-stream failure (`bodyResult = none`) is 500 with no write; a
write failure (`writeOk = false`) is 500; a successful write stores the
body and answers 201 when `existed` was false, else 200, with an empty
body. -/
def handlePut (fs : FS) (now : Str) (absPath : Str) (bodyResult : Option (List Nat))
    (writeOk : Bool) : Response × FS :=
  if ¬ isDirAt fs (dirname absPath) then
    (send now 404 ctPlain (asciiBytes "Not Found\n"), fs)
  else
    let existed := isFileAt fs absPath
    match bodyResult with
    | none => (send now 500 ctPlain (asciiBytes "Internal Server Error\n"), fs)
    | some body =>
      if writeOk then
        (send now (if existed then 200 else 201) ctPlain [], fsWrite fs absPath body)
      else (send now 500 ctPlain (asciiBytes "Internal Server Error\n"), fs)

/-- Model of `handleDelete(absPath, res)`: `ENOENT` is 404, any other unlink
error is 500, success is 204 with an explicit `Content-Length: 0` and no
body. -/
def handleDelete (fs : FS) (now : Str) (absPath : Str) : Response × FS :=
  match unlinkOutcome fs absPath with
  | .enoent => (send now 404 ctPlain (asciiBytes "Not Found\n"), fs)
  | .otherErr => (send now 500 ctPlain (asciiBytes "Internal Server Error\n"), fs)
  | .ok =>
    (send now 204
      [(asciiStr "Content-Type", asciiStr "text/plain; charset=utf-8"),
       (asciiStr "Content-Length", asciiStr "0")] [],
     fsRemove fs absPath)

/-- Model of `handler(req, res)` of the full server: resolve the path first
(400/403 short-circuit with no filesystem access; the `!parsed.absPath`
fallback answers 500), then dispatch on the method, any unsupported
method falling through to 405.  The returned pair is the response
together with the filesystem after the request. -/
def handler (root : List Str) (fs : FS) (now : Str) (method rawUrl : Str)
    (bodyResult : Option (List Nat)) (readOk writeOk : Bool) : Response × FS :=
  let parsed := parseAndResolvePath root rawUrl
  if parsed.status = some 400 then
    (send now 400 ctPlain (asciiBytes "Bad Request\n"), fs)
  else if parsed.status = some 403 then
    (send now 403 ctPlain (asciiBytes "Forbidden\n"), fs)
  else
    match parsed.absPath with
    | none => (send now 500 ctPlain (asciiBytes "Internal Server Error\n"), fs)
    | some absPath =>
      if method = asciiStr "GET" then (handleGet fs now absPath readOk, fs)
      else if method = asciiStr "PUT" then handlePut fs now absPath bodyResult writeOk
      else if method = asciiStr "DELETE" then handleDelete fs now absPath
      else (send now 405 ctPlain (asciiBytes "Method Not Allowed\n"), fs)

/-! ### The read-only variant (src/src/index.ts) -/

/-- Model of `handler(req, res)` of the read-only server: every non-GET method is
405 before any path handling; then the same strip/trim, the
`/ ↦ /index.html` substitution (here *before* percent-decoding), decode
(failure 400), resolve, prefix check (failure 403), and the GET flow.
It never mutates the filesystem, so only the response is returned. -/
def handlerRO (root : List Str) (fs : FS) (now : Str) (method rawUrl : Str)
    (readOk : Bool) : Response :=
  if method ≠ asciiStr "GET" then
    sendRO now 405 ctPlain (asciiBytes "Method Not Allowed\n")
  else
    let pathname := jsTrim (rawUrl.takeWhile (fun c => c ≠ '?'))
    let requestPath := if pathname = ['/'] then asciiStr "/index.html" else pathname
    match decodePct requestPath with
    | none => sendRO now 400 ctPlain (asciiBytes "Bad Request\n")
    | some decodedPath =>
      let absPath := resolvePath root ('.' :: decodedPath)
      if ¬ (joinAbs root).isPrefixOf absPath then
        sendRO now 403 ctPlain (asciiBytes "Forbidden\n")
      else
        match fs absPath with
        | some (.file data) =>
          if readOk then
            sendRO now 200
              [(asciiStr "Content-Type", guessContentType absPath),
               (asciiStr "Content-Length", Nat.toDigits 10 data.length)] data
          else sendRO now 500 ctPlain (asciiBytes "Internal Server Error\n")
        | _ => sendRO now 404 ctPlain (asciiBytes "Not Found\n")

/-! ### Concrete instances used by witnesses and counterexamples -/

/-- A concrete Served Root, `/srv/public`, with a sibling directory
`/srv/public-evil` conceivable next to it. -/
def root0 : List Str := [asciiStr "srv", asciiStr "public"]

/-- The empty filesystem. -/
def fsEmpty : FS := fun _ => none

/-- A filesystem holding just the Served Root directory `/srv/public`. -/
def fsRootOnly : FS :=
  fun p => if p = asciiStr "/srv/public" then some .dir else none

/-- A filesystem holding the root directory and the file
`/srv/public/foo.txt` with body bytes `hi`. -/
def fsWithFoo : FS :=
  fun p =>
    if p = asciiStr "/srv/public/foo.txt" then some (.file (asciiBytes "hi"))
    else if p = asciiStr "/srv/public" then some .dir
    else none

/-! ### Validity of the Served Root

`PUBLIC_DIR = path.resolve(process.cwd(), "public")` is an absolute
canonical path; its segment list is nonempty and each segment is a
nonempty slash-free name other than `.` and `..`. -/

/-- Well-formedness of the Served Root's segment list. -/
def validRoot (root : List Str) : Prop :=
  root ≠ [] ∧ ∀ s ∈ root, s ≠ [] ∧ s ≠ ['.'] ∧ s ≠ ['.', '.'] ∧ '/' ∉ s

instance (root : List Str) : Decidable (validRoot root) := by
  unfold validRoot; infer_instance

/-! ### Helper lemmas about the resolver's string plumbing -/

theorem splitSlash_cons (c : Char) (rest : Str) :
    splitSlash (c :: rest) =
      if c = '/' then [] :: splitSlash rest
      else
        match splitSlash rest with
        | [] => [[c]]
        | s :: ss => (c :: s) :: ss := rfl

theorem splitSlash_ne_nil (s : Str) : splitSlash s ≠ [] := by
  cases s with
  | nil => simp [splitSlash]
  | cons c rest =>
    rw [splitSlash_cons]
    by_cases hc : c = '/'
    · rw [if_pos hc]; simp
    · rw [if_neg hc]
      cases hsp : splitSlash rest with
      | nil => simp [hsp]
      | cons s0 ss => simp [hsp]

theorem mem_splitSlash_no_slash (s : Str) : ∀ p ∈ splitSlash s, '/' ∉ p := by
  induction s with
  | nil =>
    intro p hp
    simp only [splitSlash, List.mem_singleton] at hp
    simp [hp]
  | cons c rest ih =>
    intro p hp
    rw [splitSlash_cons] at hp
    by_cases hc : c = '/'
    · rw [if_pos hc] at hp
      rcases List.mem_cons.1 hp with h | h
      · simp [h]
      · exact ih p h
    · rw [if_neg hc] at hp
      cases hsp : splitSlash rest with
      | nil => exact absurd hsp (splitSlash_ne_nil rest)
      | cons s0 ss =>
        simp only [hsp] at hp
        rcases List.mem_cons.1 hp with h | h
        · subst h
          intro hmem
          rcases List.mem_cons.1 hmem with h0 | h0
          · exact hc h0.symm
          · exact ih s0 (by rw [hsp]; exact List.mem_cons_self s0 ss) h0
        · exact ih p (by rw [hsp]; exact List.mem_cons_of_mem s0 h)

theorem splitSlash_of_no_slash (s : Str) (h : '/' ∉ s) : splitSlash s = [s] := by
  induction s with
  | nil => rfl
  | cons c rest ih =>
    have hc : ¬ c = '/' := fun hc => h (hc ▸ List.mem_cons_self c rest)
    rw [splitSlash_cons, if_neg hc, ih (fun hm => h (List.mem_cons_of_mem c hm))]

theorem splitSlash_append (s t : Str) (h : '/' ∉ s) :
    splitSlash (s ++ '/' :: t) = s :: splitSlash t := by
  induction s with
  | nil =>
    show splitSlash ('/' :: t) = [] :: splitSlash t
    rw [splitSlash_cons, if_pos rfl]
  | cons c rest ih =>
    have hc : ¬ c = '/' := fun hc => h (hc ▸ List.mem_cons_self c rest)
    show splitSlash (c :: (rest ++ '/' :: t)) = (c :: rest) :: splitSlash t
    rw [splitSlash_cons, if_neg hc, ih (fun hm => h (List.mem_cons_of_mem c hm))]

/-- Property of a canonical path segment: nonempty, slash-free, and not
a dot segment. -/
def goodSeg (s : Str) : Prop :=
  s ≠ [] ∧ s ≠ ['.'] ∧ s ≠ ['.', '.'] ∧ '/' ∉ s

theorem foldl_normStep_good (segs : List Str) :
    ∀ stack : List Str, (∀ x ∈ stack, goodSeg x) → (∀ p ∈ segs, '/' ∉ p) →
      ∀ x ∈ segs.foldl normStep stack, goodSeg x := by
  induction segs with
  | nil => intro stack hstack _ x hx; exact hstack x hx
  | cons s rest ih =>
    intro stack hstack hsegs x hx
    rw [List.foldl_cons] at hx
    refine ih (normStep stack s) ?_ (fun p hp => hsegs p (List.mem_cons_of_mem s hp)) x hx
    intro y hy
    unfold normStep at hy
    by_cases h1 : s = [] ∨ s = ['.']
    · rw [if_pos h1] at hy; exact hstack y hy
    · rw [if_neg h1] at hy
      by_cases h2 : s = ['.', '.']
      · rw [if_pos h2] at hy; exact hstack y (List.mem_of_mem_dropLast hy)
      · rw [if_neg h2] at hy
        rcases List.mem_append.1 hy with h | h
        · exact hstack y h
        · rcases List.mem_cons.1 h with h | h
          · push_neg at h1
            exact h ▸ ⟨h1.1, h1.2, h2, hsegs s (List.mem_cons_self s rest)⟩
          · simp at h

theorem foldl_normStep_of_good (segs : List Str) :
    ∀ stack : List Str, (∀ x ∈ segs, x ≠ [] ∧ x ≠ ['.'] ∧ x ≠ ['.', '.']) →
      segs.foldl normStep stack = stack ++ segs := by
  induction segs with
  | nil => intro stack _; simp
  | cons s rest ih =>
    intro stack h
    have hs := h s (List.mem_cons_self s rest)
    rw [List.foldl_cons]
    have hstep : normStep stack s = stack ++ [s] := by
      unfold normStep
      rw [if_neg (by push_neg; exact ⟨hs.1, hs.2.1⟩), if_neg hs.2.2]
    rw [hstep, ih (stack ++ [s]) (fun x hx => h x (List.mem_cons_of_mem s hx)),
      List.append_assoc]
    rfl

theorem joinSegs_append (xs ys : List Str) :
    joinSegs (xs ++ ys) = joinSegs xs ++ joinSegs ys := by
  induction xs with
  | nil => simp [joinSegs]
  | cons x xs ih => simp [joinSegs, ih]

theorem joinAbs_ne_nil (segs : List Str) : joinAbs segs ≠ [] := by
  unfold joinAbs
  split
  · simp
  · rename_i h
    match segs, h with
    | s :: rest, _ => simp [joinSegs]

theorem joinAbs_of_ne_nil (segs : List Str) (h : segs ≠ []) :
    joinAbs segs = joinSegs segs := if_neg h

theorem pathSegs_joinSegs (segs : List Str) (hne : segs ≠ [])
    (h : ∀ s ∈ segs, '/' ∉ s) : pathSegs (joinSegs segs) = segs := by
  have aux : ∀ (r : List Str) (s0 : Str), '/' ∉ s0 → (∀ x ∈ r, '/' ∉ x) →
      splitSlash (s0 ++ joinSegs r) = s0 :: r := by
    intro r
    induction r with
    | nil =>
      intro s0 hs0 _
      simp only [joinSegs, List.append_nil]
      exact splitSlash_of_no_slash s0 hs0
    | cons y ys ih =>
      intro s0 hs0 hr
      show splitSlash (s0 ++ '/' :: (y ++ joinSegs ys)) = s0 :: y :: ys
      rw [splitSlash_append s0 (y ++ joinSegs ys) hs0,
        ih y (hr y (List.mem_cons_self y ys)) (fun x hx => hr x (List.mem_cons_of_mem y hx))]
  match segs, hne with
  | s :: rest, _ =>
    show splitSlash (s ++ joinSegs rest) = s :: rest
    exact aux rest s (h s (List.mem_cons_self s rest))
      (fun x hx => h x (List.mem_cons_of_mem s hx))

theorem append_slash_inj (x : Str) :
    ∀ (y u v : Str), '/' ∉ x → '/' ∉ y → x ++ '/' :: u = y ++ '/' :: v →
      x = y ∧ u = v := by
  induction x with
  | nil =>
    intro y u v _ hy h
    cases y with
    | nil => exact ⟨rfl, by simpa using h⟩
    | cons d y2 =>
      simp only [List.nil_append, List.cons_append, List.cons.injEq] at h
      exact absurd (h.1 ▸ List.mem_cons_self d y2) hy
  | cons c x2 ih =>
    intro y u v hx hy h
    cases y with
    | nil =>
      simp only [List.cons_append, List.nil_append, List.cons.injEq] at h
      exact absurd (h.1.symm ▸ List.mem_cons_self c x2) hx
    | cons d y2 =>
      simp only [List.cons_append, List.cons.injEq] at h
      obtain ⟨hcd, h2⟩ := h
      have := ih y2 u v (fun hm => hx (List.mem_cons_of_mem c hm))
        (fun hm => hy (List.mem_cons_of_mem d hm)) h2
      exact ⟨by rw [hcd, this.1], this.2⟩

theorem joinSegs_cons_slash (xs : List Str) (t : Str) :
    ∃ t2, joinSegs xs ++ '/' :: t = '/' :: t2 := by
  cases xs with
  | nil => exact ⟨t, rfl⟩
  | cons w ws =>
    refine ⟨w ++ joinSegs ws ++ '/' :: t, ?_⟩
    simp [joinSegs]

theorem joinSegs_prefix_of_eq (xs : List Str) :
    ∀ (ys : List Str) (t : Str), (∀ s ∈ xs, '/' ∉ s) → (∀ s ∈ ys, '/' ∉ s) →
      joinSegs xs ++ '/' :: t = joinSegs ys → xs <+: ys := by
  induction xs with
  | nil => intro ys _ _ _ _; exact List.nil_prefix
  | cons x xs2 ih =>
    intro ys t hx hy h
    cases ys with
    | nil =>
      exfalso
      simp only [joinSegs, List.cons_append, List.append_assoc] at h
      exact List.cons_ne_nil _ _ h
    | cons y ys2 =>
      simp only [joinSegs, List.cons_append, List.append_assoc, List.cons.injEq,
        true_and] at h
      obtain ⟨t2, ht2⟩ := joinSegs_cons_slash xs2 t
      rw [ht2] at h
      cases ys2 with
      | nil =>
        exfalso
        simp only [joinSegs, List.append_nil] at h
        have hmem : '/' ∈ x ++ '/' :: t2 := List.mem_append_right x (List.mem_cons_self '/' t2)
        rw [h] at hmem
        exact hy y (List.mem_cons_self y []) hmem
      | cons z zs =>
        have hjy : joinSegs (z :: zs) = '/' :: (z ++ joinSegs zs) := rfl
        rw [hjy] at h
        have hinj := append_slash_inj x y t2 (z ++ joinSegs zs)
          (hx x (List.mem_cons_self x xs2)) (hy y (List.mem_cons_self y (z :: zs))) h
        have hpre : xs2 <+: z :: zs := by
          refine ih (z :: zs) t (fun s hs => hx s (List.mem_cons_of_mem x hs))
            (fun s hs => hy s (List.mem_cons_of_mem y hs)) ?_
          rw [ht2, hjy, hinj.2]
        obtain ⟨w, hw⟩ := hpre
        exact ⟨w, by rw [List.cons_append, hw, hinj.1]⟩

/-- Case analysis on the resolver's result object: exactly the three
shapes occur — `{status: 400}`, `{status: 403}` and `{absPath}`. -/
theorem resolveResult_cases (root : List Str) (rawUrl : Str) :
    parseAndResolvePath root rawUrl = ⟨none, some 400⟩ ∨
    parseAndResolvePath root rawUrl = ⟨none, some 403⟩ ∨
    ∃ a, parseAndResolvePath root rawUrl = ⟨some a, none⟩ := by
  cases hd : decodePct (jsTrim (rawUrl.takeWhile (fun c => c ≠ '?'))) with
  | none => left; simp only [parseAndResolvePath, hd]
  | some d =>
    simp only [parseAndResolvePath, hd]
    set a := resolvePath root ('.' :: (if d = ['/'] then asciiStr "/index.html" else d)) with ha
    by_cases hpre : List.isPrefixOf (joinAbs root) a = true
    · exact Or.inr (Or.inr ⟨a, by rw [if_pos hpre]⟩)
    · exact Or.inr (Or.inl (by rw [if_neg hpre]))

/-! ### Reduction lemmas for the full server's handler -/

theorem handler_400 (root : List Str) (fs : FS) (now method rawUrl : Str)
    (bodyResult : Option (List Nat)) (readOk writeOk : Bool)
    (hres : parseAndResolvePath root rawUrl = ⟨none, some 400⟩) :
    handler root fs now method rawUrl bodyResult readOk writeOk
      = (send now 400 ctPlain (asciiBytes "Bad Request\n"), fs) := by
  simp only [handler, hres]
  rfl

theorem handler_403 (root : List Str) (fs : FS) (now method rawUrl : Str)
    (bodyResult : Option (List Nat)) (readOk writeOk : Bool)
    (hres : parseAndResolvePath root rawUrl = ⟨none, some 403⟩) :
    handler root fs now method rawUrl bodyResult readOk writeOk
      = (send now 403 ctPlain (asciiBytes "Forbidden\n"), fs) := by
  simp only [handler, hres]
  rfl

theorem handler_ok (root : List Str) (fs : FS) (now method rawUrl : Str)
    (bodyResult : Option (List Nat)) (readOk writeOk : Bool) (a : Str)
    (hres : parseAndResolvePath root rawUrl = ⟨some a, none⟩) :
    handler root fs now method rawUrl bodyResult readOk writeOk
      = (if method = asciiStr "GET" then (handleGet fs now a readOk, fs)
         else if method = asciiStr "PUT" then handlePut fs now a bodyResult writeOk
         else if method = asciiStr "DELETE" then handleDelete fs now a
         else (send now 405 ctPlain (asciiBytes "Method Not Allowed\n"), fs)) := by
  simp only [handler, hres]
  rfl

/-- C10: for every input string, `parseAndResolvePath` returns exactly
one of three mutually exclusive results — a resolved absolute path,
status 400, or status 403 — never none of them; consequently the guard
of the handler's fallback branch (which answers 500 when the resolver
yields neither a status nor a path) is unsatisfiable, so that branch is
unreachable. -/
theorem c10_resolver_trichotomy (root : List Str) (rawUrl : Str) :
    ((parseAndResolvePath root rawUrl).status = some 400 ∧
        (parseAndResolvePath root rawUrl).absPath = none ∨
      (parseAndResolvePath root rawUrl).status = some 403 ∧
        (parseAndResolvePath root rawUrl).absPath = none ∨
      (parseAndResolvePath root rawUrl).status = none ∧
        ∃ a, (parseAndResolvePath root rawUrl).absPath = some a) ∧
    ¬ ((parseAndResolvePath root rawUrl).status ≠ some 400 ∧
        (parseAndResolvePath root rawUrl).status ≠ some 403 ∧
        (parseAndResolvePath root rawUrl).absPath = none) := by
  rcases resolveResult_cases root rawUrl with h | h | ⟨a, h⟩ <;> rw [h] <;> simp

/-- C3: whenever percent-decoding of the stripped, trimmed path fails
(a malformed escape sequence), the resolver returns the 400 rejection,
the full server responds 400 with the filesystem untouched, and the
read-only server's GET path responds 400 as well. -/
theorem c3_bad_decode_400 (root : List Str) (fs : FS) (now method rawUrl : Str)
    (bodyResult : Option (List Nat)) (readOk writeOk : Bool)
    (hdec : decodePct (jsTrim (rawUrl.takeWhile (fun c => c ≠ '?'))) = none) :
    parseAndResolvePath root rawUrl = ⟨none, some 400⟩ ∧
    handler root fs now method rawUrl bodyResult readOk writeOk
      = (send now 400 ctPlain (asciiBytes "Bad Request\n"), fs) ∧
    handlerRO root fs now (asciiStr "GET") rawUrl readOk
      = sendRO now 400 ctPlain (asciiBytes "Bad Request\n") := by
  have h1 : parseAndResolvePath root rawUrl = ⟨none, some 400⟩ := by
    simp only [parseAndResolvePath, hdec]
  refine ⟨h1, handler_400 root fs now method rawUrl bodyResult readOk writeOk h1, ?_⟩
  have hne : jsTrim (rawUrl.takeWhile (fun c => c ≠ '?')) ≠ ['/'] := by
    intro hp
    rw [hp] at hdec
    exact absurd hdec (by decide)
  simp only [handlerRO, if_neg (not_not_intro rfl), if_neg hne, hdec]

/-- C3 witness: the concrete malformed escape `/%zz`. -/
theorem c3_witness :
    decodePct (jsTrim ((asciiStr "/%zz").takeWhile (fun c => c ≠ '?'))) = none ∧
    (parseAndResolvePath root0 (asciiStr "/%zz") = ⟨none, some 400⟩ ∧
     handler root0 fsRootOnly [] (asciiStr "GET") (asciiStr "/%zz") none true true
       = (send [] 400 ctPlain (asciiBytes "Bad Request\n"), fsRootOnly) ∧
     handlerRO root0 fsRootOnly [] (asciiStr "GET") (asciiStr "/%zz") true
       = sendRO [] 400 ctPlain (asciiBytes "Bad Request\n")) :=
  ⟨by decide,
   c3_bad_decode_400 root0 fsRootOnly [] (asciiStr "GET") (asciiStr "/%zz") none true true
     (by decide)⟩

/-- C6: a PUT whose resolved path's parent directory does not exist (or
is not a directory) answers 404 Not Found and leaves the filesystem
unchanged — no file and no intermediate directory is created. -/
theorem c6_put_missing_parent (root : List Str) (fs : FS) (now rawUrl : Str)
    (bodyResult : Option (List Nat)) (readOk writeOk : Bool) (a : Str)
    (hres : parseAndResolvePath root rawUrl = ⟨some a, none⟩)
    (hpar : isDirAt fs (dirname a) = false) :
    handler root fs now (asciiStr "PUT") rawUrl bodyResult readOk writeOk
      = (send now 404 ctPlain (asciiBytes "Not Found\n"), fs) := by
  rw [handler_ok root fs now (asciiStr "PUT") rawUrl bodyResult readOk writeOk a hres,
    if_neg (by decide), if_pos rfl]
  unfold handlePut
  rw [if_pos (by simp [hpar])]

/-- C6 witness: `PUT /missingdir/foo.txt` against a filesystem holding
only the root directory. -/
theorem c6_witness :
    parseAndResolvePath root0 (asciiStr "/missingdir/foo.txt")
        = ⟨some (asciiStr "/srv/public/missingdir/foo.txt"), none⟩ ∧
    isDirAt fsRootOnly (dirname (asciiStr "/srv/public/missingdir/foo.txt")) = false ∧
    handler root0 fsRootOnly [] (asciiStr "PUT") (asciiStr "/missingdir/foo.txt")
        (some []) true true
      = (send [] 404 ctPlain (asciiBytes "Not Found\n"), fsRootOnly) :=
  ⟨by decide, by decide,
   c6_put_missing_parent root0 fsRootOnly [] (asciiStr "/missingdir/foo.txt")
     (some []) true true (asciiStr "/srv/public/missingdir/foo.txt") (by decide) (by decide)⟩

/-- C4: a PUT to a resolved path whose parent directory exists, with the
body drained and the write succeeding, answers 201 when the target was
not previously a regular file and 200 when it was, with an empty body;
a second identical PUT therefore answers 200, not 201. -/
theorem c4_put_status (fs : FS) (now now2 : Str) (a : Str) (B : List Nat)
    (hpar : isDirAt fs (dirname a) = true) (hna : dirname a ≠ a) :
    handlePut fs now a (some B) true
      = (send now (if isFileAt fs a then 200 else 201) ctPlain [], fsWrite fs a B) ∧
    handlePut (fsWrite fs a B) now2 a (some B) true
      = (send now2 200 ctPlain [], fsWrite (fsWrite fs a B) a B) := by
  constructor
  · unfold handlePut
    rw [if_neg (by simp [hpar])]
    rfl
  · have hwa : fsWrite fs a B (dirname a) = fs (dirname a) := by
      unfold fsWrite
      rw [if_neg hna]
    have hd : isDirAt (fsWrite fs a B) (dirname a) = true := by
      unfold isDirAt at hpar ⊢
      rw [hwa]
      exact hpar
    have hf : isFileAt (fsWrite fs a B) a = true := by
      unfold isFileAt fsWrite
      rw [if_pos rfl]
    unfold handlePut
    rw [if_neg (by simp [hd])]
    simp only [hf]
    rfl

/-- C4 witness: two identical PUTs of `/srv/public/foo.txt`. -/
theorem c4_witness :
    isDirAt fsRootOnly (dirname (asciiStr "/srv/public/foo.txt")) = true ∧
    dirname (asciiStr "/srv/public/foo.txt") ≠ asciiStr "/srv/public/foo.txt" ∧
    (handlePut fsRootOnly [] (asciiStr "/srv/public/foo.txt") (some (asciiBytes "hi")) true
       = (send []
           (if isFileAt fsRootOnly (asciiStr "/srv/public/foo.txt") then 200 else 201)
           ctPlain [],
          fsWrite fsRootOnly (asciiStr "/srv/public/foo.txt") (asciiBytes "hi")) ∧
     handlePut (fsWrite fsRootOnly (asciiStr "/srv/public/foo.txt") (asciiBytes "hi")) []
         (asciiStr "/srv/public/foo.txt") (some (asciiBytes "hi")) true
       = (send [] 200 ctPlain [],
          fsWrite (fsWrite fsRootOnly (asciiStr "/srv/public/foo.txt") (asciiBytes "hi"))
            (asciiStr "/srv/public/foo.txt") (asciiBytes "hi"))) :=
  ⟨by decide, by decide,
   c4_put_status fsRootOnly [] [] (asciiStr "/srv/public/foo.txt") (asciiBytes "hi")
     (by decide) (by decide)⟩

/-- C7: DELETE of a resolved path answers 204 No Content with an empty
body and an explicit `Content-Length: 0` header when removal succeeds
(and a second DELETE of the same path then answers 404), answers 404 Not
Found when the file does not exist, and answers 500 on any other removal
failure. -/
theorem c7_delete_semantics (fs : FS) (now now2 a : Str) :
    (isFileAt fs a = true →
      handleDelete fs now a
        = (send now 204
            [(asciiStr "Content-Type", asciiStr "text/plain; charset=utf-8"),
             (asciiStr "Content-Length", asciiStr "0")] [],
           fsRemove fs a) ∧
      getHeader (handleDelete fs now a).1 (asciiStr "Content-Length")
        = some (asciiStr "0") ∧
      (handleDelete fs now a).1.body = [] ∧
      handleDelete (fsRemove fs a) now2 a
        = (send now2 404 ctPlain (asciiBytes "Not Found\n"), fsRemove fs a)) ∧
    (fs a = none →
      handleDelete fs now a = (send now 404 ctPlain (asciiBytes "Not Found\n"), fs)) ∧
    (unlinkOutcome fs a = .otherErr →
      handleDelete fs now a
        = (send now 500 ctPlain (asciiBytes "Internal Server Error\n"), fs)) := by
  refine ⟨?_, ?_, ?_⟩
  · intro hfile
    have hok : unlinkOutcome fs a = .ok := by
      unfold isFileAt at hfile
      unfold unlinkOutcome
      cases h : fs a with
      | none => rw [h] at hfile; simp at hfile
      | some node =>
        cases node with
        | file d => rfl
        | dir => rw [h] at hfile; simp at hfile
    have h204 : handleDelete fs now a
        = (send now 204
            [(asciiStr "Content-Type", asciiStr "text/plain; charset=utf-8"),
             (asciiStr "Content-Length", asciiStr "0")] [],
           fsRemove fs a) := by
      unfold handleDelete
      rw [hok]
    have hsecond : unlinkOutcome (fsRemove fs a) a = .enoent := by
      unfold unlinkOutcome fsRemove
      rw [if_pos rfl]
    refine ⟨h204, ?_, ?_, ?_⟩
    · rw [h204]
      rfl
    · rw [h204]
      rfl
    · unfold handleDelete
      rw [hsecond]
  · intro hnone
    have hen : unlinkOutcome fs a = .enoent := by
      unfold unlinkOutcome
      rw [hnone]
    unfold handleDelete
    rw [hen]
  · intro hother
    unfold handleDelete
    rw [hother]

/-- C7 witness: deleting the existing file `/srv/public/foo.txt` answers
204 with `Content-Length: 0`, and deleting it again answers 404. -/
theorem c7_witness :
    isFileAt fsWithFoo (asciiStr "/srv/public/foo.txt") = true ∧
    (handleDelete fsWithFoo [] (asciiStr "/srv/public/foo.txt")
       = (send [] 204
           [(asciiStr "Content-Type", asciiStr "text/plain; charset=utf-8"),
            (asciiStr "Content-Length", asciiStr "0")] [],
          fsRemove fsWithFoo (asciiStr "/srv/public/foo.txt")) ∧
     getHeader (handleDelete fsWithFoo [] (asciiStr "/srv/public/foo.txt")).1
         (asciiStr "Content-Length") = some (asciiStr "0") ∧
     (handleDelete fsWithFoo [] (asciiStr "/srv/public/foo.txt")).1.body = [] ∧
     handleDelete (fsRemove fsWithFoo (asciiStr "/srv/public/foo.txt")) []
         (asciiStr "/srv/public/foo.txt")
       = (send [] 404 ctPlain (asciiBytes "Not Found\n"),
          fsRemove fsWithFoo (asciiStr "/srv/public/foo.txt"))) :=
  ⟨by decide,
   (c7_delete_semantics fsWithFoo [] [] (asciiStr "/srv/public/foo.txt")).1 (by decide)⟩

/-- C2 counterexample: a PATCH request with the malformed path `/%zz`
is answered 400 by the full server, not 405 — the claim "the server
responds 405 Method Not Allowed for every URL path, malformed included"
is false on the code (path resolution runs first). -/
theorem c2_counterexample :
    (handler root0 fsRootOnly [] (asciiStr "PATCH") (asciiStr "/%zz") none true true).1.status
        ≠ 405 ∧
    (handler root0 fsRootOnly [] (asciiStr "PATCH") (asciiStr "/%zz") none true true).1.status
        = 400 := by
  constructor <;> decide

/-- C2 (amended): a request whose method is not GET, PUT or DELETE never
mutates the filesystem and is answered 405 whenever path resolution
succeeds; when resolution fails the resolver's 400/403 short-circuits
first, so the status is always one of 405, 400, 403.  The read-only
variant answers 405 to every non-GET method before any path handling. -/
theorem c2_unsupported_method (root : List Str) (fs : FS) (now method rawUrl : Str)
    (bodyResult : Option (List Nat)) (readOk writeOk : Bool)
    (hg : method ≠ asciiStr "GET") (hp : method ≠ asciiStr "PUT")
    (hd : method ≠ asciiStr "DELETE") :
    (handler root fs now method rawUrl bodyResult readOk writeOk).2 = fs ∧
    ((handler root fs now method rawUrl bodyResult readOk writeOk).1.status = 405 ∨
     (handler root fs now method rawUrl bodyResult readOk writeOk).1.status = 400 ∨
     (handler root fs now method rawUrl bodyResult readOk writeOk).1.status = 403) ∧
    (∀ a, parseAndResolvePath root rawUrl = ⟨some a, none⟩ →
      handler root fs now method rawUrl bodyResult readOk writeOk
        = (send now 405 ctPlain (asciiBytes "Method Not Allowed\n"), fs)) ∧
    handlerRO root fs now method rawUrl readOk
      = sendRO now 405 ctPlain (asciiBytes "Method Not Allowed\n") := by
  have hro : handlerRO root fs now method rawUrl readOk
      = sendRO now 405 ctPlain (asciiBytes "Method Not Allowed\n") := by
    unfold handlerRO
    rw [if_pos hg]
  rcases resolveResult_cases root rawUrl with h | h | ⟨a, h⟩
  · have heq := handler_400 root fs now method rawUrl bodyResult readOk writeOk h
    refine ⟨by rw [heq], Or.inr (Or.inl (by rw [heq]; rfl)), ?_, hro⟩
    intro a ha
    rw [h] at ha
    simp at ha
  · have heq := handler_403 root fs now method rawUrl bodyResult readOk writeOk h
    refine ⟨by rw [heq], Or.inr (Or.inr (by rw [heq]; rfl)), ?_, hro⟩
    intro a ha
    rw [h] at ha
    simp at ha
  · have heq := handler_ok root fs now method rawUrl bodyResult readOk writeOk a h
    rw [if_neg hg, if_neg hp, if_neg hd] at heq
    refine ⟨by rw [heq], Or.inl (by rw [heq]; rfl), ?_, hro⟩
    intro a2 ha2
    rw [heq]

/-- C2 witness: a PATCH request with a well-formed path is answered 405
with no filesystem mutation. -/
theorem c2_witness :
    asciiStr "PATCH" ≠ asciiStr "GET" ∧
    asciiStr "PATCH" ≠ asciiStr "PUT" ∧
    asciiStr "PATCH" ≠ asciiStr "DELETE" ∧
    ((handler root0 fsRootOnly [] (asciiStr "PATCH") (asciiStr "/a.txt") none true true).2
        = fsRootOnly ∧
     ((handler root0 fsRootOnly [] (asciiStr "PATCH") (asciiStr "/a.txt") none true true).1.status
          = 405 ∨
      (handler root0 fsRootOnly [] (asciiStr "PATCH") (asciiStr "/a.txt") none true true).1.status
          = 400 ∨
      (handler root0 fsRootOnly [] (asciiStr "PATCH") (asciiStr "/a.txt") none true true).1.status
          = 403) ∧
     (∀ a, parseAndResolvePath root0 (asciiStr "/a.txt") = ⟨some a, none⟩ →
       handler root0 fsRootOnly [] (asciiStr "PATCH") (asciiStr "/a.txt") none true true
         = (send [] 405 ctPlain (asciiBytes "Method Not Allowed\n"), fsRootOnly)) ∧
     handlerRO root0 fsRootOnly [] (asciiStr "PATCH") (asciiStr "/a.txt") true
       = sendRO [] 405 ctPlain (asciiBytes "Method Not Allowed\n")) :=
  ⟨by decide, by decide, by decide,
   c2_unsupported_method root0 fsRootOnly [] (asciiStr "PATCH") (asciiStr "/a.txt")
     none true true (by decide) (by decide) (by decide)⟩

/-! ### Resolver computations for successful decodes -/

theorem resolver_decode_some (root : List Str) (rawUrl d : Str)
    (hd : decodePct (jsTrim (rawUrl.takeWhile (fun c => c ≠ '?'))) = some d) :
    parseAndResolvePath root rawUrl =
      (if (joinAbs root).isPrefixOf
            (resolvePath root ('.' :: (if d = ['/'] then asciiStr "/index.html" else d)))
        then ⟨some (resolvePath root
                ('.' :: (if d = ['/'] then asciiStr "/index.html" else d))), none⟩
        else (⟨none, some 403⟩ : ResolveResult)) := by
  simp only [parseAndResolvePath, hd]

theorem normStep_dot (stack : List Str) : normStep stack ['.'] = stack := by
  unfold normStep
  rw [if_pos (Or.inr rfl)]

theorem resolver_empty_path (root : List Str) (hroot : validRoot root) (rawUrl : Str)
    (hempty : jsTrim (rawUrl.takeWhile (fun c => c ≠ '?')) = []) :
    parseAndResolvePath root rawUrl = ⟨some (joinAbs root), none⟩ := by
  have hgood : ∀ x ∈ root, x ≠ [] ∧ x ≠ ['.'] ∧ x ≠ ['.', '.'] :=
    fun x hx => ⟨(hroot.2 x hx).1, (hroot.2 x hx).2.1, (hroot.2 x hx).2.2.1⟩
  have habs : resolvePath root ('.' :: ([] : Str)) = joinAbs root := by
    unfold resolvePath
    have hstack : normalizeSegs (root ++ splitSlash ['.']) = root := by
      show normalizeSegs (root ++ [['.']]) = root
      unfold normalizeSegs
      rw [List.foldl_append, foldl_normStep_of_good root [] hgood, List.nil_append]
      exact normStep_dot root
    rw [show splitSlash ('.' :: ([] : Str)) = splitSlash ['.'] from rfl, hstack]
  rw [resolver_decode_some root rawUrl [] (by rw [hempty]; rfl),
    show (if ([] : Str) = ['/'] then asciiStr "/index.html" else ([] : Str)) = []
      from by decide,
    habs, if_pos ( List.isPrefixOf_iff_prefix.2 List.prefix_rfl)]

theorem resolver_index_html (root : List Str) (hroot : validRoot root) :
    parseAndResolvePath root (asciiStr "/")
      = ⟨some (joinAbs root ++ asciiStr "/index.html"), none⟩ := by
  have hgood : ∀ x ∈ root, x ≠ [] ∧ x ≠ ['.'] ∧ x ≠ ['.', '.'] :=
    fun x hx => ⟨(hroot.2 x hx).1, (hroot.2 x hx).2.1, (hroot.2 x hx).2.2.1⟩
  have habs : resolvePath root ('.' :: asciiStr "/index.html")
      = joinAbs root ++ asciiStr "/index.html" := by
    unfold resolvePath
    have hstack : normalizeSegs (root ++ splitSlash ('.' :: asciiStr "/index.html"))
        = root ++ [asciiStr "index.html"] := by
      rw [show splitSlash ('.' :: asciiStr "/index.html")
            = [['.'], asciiStr "index.html"] from by decide]
      unfold normalizeSegs
      rw [show root ++ [['.'], asciiStr "index.html"]
            = (root ++ [['.']]) ++ [asciiStr "index.html"] from by simp,
        List.foldl_append, List.foldl_append, foldl_normStep_of_good root [] hgood,
        List.nil_append]
      show normStep (normStep root ['.']) (asciiStr "index.html")
          = root ++ [asciiStr "index.html"]
      rw [normStep_dot root]
      unfold normStep
      rw [if_neg (by decide), if_neg (by decide)]
    rw [hstack, joinAbs_of_ne_nil _ (by simp), joinAbs_of_ne_nil root hroot.1,
      joinSegs_append,
      show joinSegs [asciiStr "index.html"] = asciiStr "/index.html" from by decide]
  rw [resolver_decode_some root (asciiStr "/") ['/'] (by decide),
    show (if (['/'] : Str) = ['/'] then asciiStr "/index.html" else (['/'] : Str))
        = asciiStr "/index.html" from by decide,
    habs, if_pos ( List.isPrefixOf_iff_prefix.2 (List.prefix_append _ _))]

/-- C9 counterexample: the empty raw URL (path component empty after
stripping and trimming) resolves to the Served Root directory itself,
not to the root's `/index.html`, so it does not behave as `/` does. -/
theorem c9_counterexample :
    jsTrim (([] : Str).takeWhile (fun c => c ≠ '?')) = [] ∧
    (parseAndResolvePath root0 []).absPath = some (asciiStr "/srv/public") ∧
    (parseAndResolvePath root0 (asciiStr "/")).absPath
        = some (asciiStr "/srv/public/index.html") ∧
    (parseAndResolvePath root0 []).absPath
        ≠ (parseAndResolvePath root0 (asciiStr "/")).absPath := by
  refine ⟨by decide, by decide, by decide, by decide⟩

/-- C9 (amended): a raw URL whose path component is empty after
stripping the query string and trimming does *not* receive the
`/index.html` substitution (only the exact path `/` does): it resolves
to the Served Root directory itself, which differs from the resolution
of `/`. -/
theorem c9_empty_path_resolves_to_root (root : List Str) (rawUrl : Str)
    (hroot : validRoot root)
    (hempty : jsTrim (rawUrl.takeWhile (fun c => c ≠ '?')) = []) :
    parseAndResolvePath root rawUrl = ⟨some (joinAbs root), none⟩ ∧
    parseAndResolvePath root (asciiStr "/")
      = ⟨some (joinAbs root ++ asciiStr "/index.html"), none⟩ ∧
    (parseAndResolvePath root rawUrl).absPath
      ≠ (parseAndResolvePath root (asciiStr "/")).absPath := by
  have h1 := resolver_empty_path root hroot rawUrl hempty
  have h2 := resolver_index_html root hroot
  refine ⟨h1, h2, ?_⟩
  rw [h1, h2]
  intro h
  have h3 := Option.some.inj h
  have h4 := congrArg List.length h3
  rw [List.length_append] at h4
  simp [asciiStr] at h4

/-- C9 witness: the concrete empty raw URL against the root
`/srv/public`. -/
theorem c9_witness :
    validRoot root0 ∧
    (parseAndResolvePath root0 [] = ⟨some (joinAbs root0), none⟩ ∧
     parseAndResolvePath root0 (asciiStr "/")
       = ⟨some (joinAbs root0 ++ asciiStr "/index.html"), none⟩ ∧
     (parseAndResolvePath root0 []).absPath
       ≠ (parseAndResolvePath root0 (asciiStr "/")).absPath) :=
  ⟨by decide, c9_empty_path_resolves_to_root root0 [] (by decide) (by decide)⟩

/-! ### Confinement analysis of the resolver -/

theorem joinAbs_length_ge_two (root : List Str) (hroot : validRoot root) :
    2 ≤ (joinAbs root).length := by
  match root, hroot.1 with
  | r :: rs, _ =>
    rw [joinAbs_of_ne_nil _ (by simp)]
    show 2 ≤ ('/' :: (r ++ joinSegs rs)).length
    have hr : r ≠ [] := (hroot.2 r (List.mem_cons_self r rs)).1
    have hrlen : 0 < r.length := List.length_pos.2 hr
    simp only [List.length_cons, List.length_append]
    omega

/-- C1 counterexample: against the Served Root `/srv/public`, the raw
path `/../public-evil/x` resolves to `/srv/public-evil/x` — accepted by
the resolver (it is not Forbidden) because the naive `startsWith` check
passes, yet the result lies outside the root (it is not a descendant of
`/srv/public`). -/
theorem c1_counterexample :
    (parseAndResolvePath root0 (asciiStr "/../public-evil/x")).absPath
        = some (asciiStr "/srv/public-evil/x") ∧
    (parseAndResolvePath root0 (asciiStr "/../public-evil/x")).status ≠ some 403 ∧
    isDescendant root0 (asciiStr "/srv/public-evil/x") = false := by
  refine ⟨by decide, by decide, by decide⟩

/-- C1 (amended): for every raw URL path the resolver returns the 400
rejection, the 403 rejection, or an absolute path that is canonical (its
segments are nonempty, slash-free and contain no `.` or `..`) and whose
*string* starts with the Served Root's string; such a path is a genuine
descendant of the root exactly when that string prefix ends at a
separator (the path equals the root or extends it with `/`) — paths
escaping into a sibling directory whose name extends the root's last
segment (e.g. `public-evil` next to `public`) pass the check while lying
outside the root. -/
theorem c1_resolver_prefix_confinement (root : List Str) (rawUrl : Str)
    (hroot : validRoot root) :
    (parseAndResolvePath root rawUrl).status = some 400 ∨
    (parseAndResolvePath root rawUrl).status = some 403 ∨
    ∃ a, (parseAndResolvePath root rawUrl).absPath = some a ∧
      (joinAbs root).isPrefixOf a = true ∧
      (∀ s ∈ pathSegs a, goodSeg s) ∧
      ((a = joinAbs root ∨ (joinAbs root ++ ['/']).isPrefixOf a = true) →
        isDescendant root a = true) := by
  cases hd : decodePct (jsTrim (rawUrl.takeWhile (fun c => c ≠ '?'))) with
  | none =>
    left
    simp only [parseAndResolvePath, hd]
  | some d =>
    rw [resolver_decode_some root rawUrl d hd]
    set n := if d = ['/'] then asciiStr "/index.html" else d with hn
    by_cases hpre : (joinAbs root).isPrefixOf (resolvePath root ('.' :: n)) = true
    · right; right
      have hstackgood : ∀ x ∈ normalizeSegs (root ++ splitSlash ('.' :: n)), goodSeg x := by
        refine foldl_normStep_good (root ++ splitSlash ('.' :: n)) [] (by simp) ?_
        intro p hp
        rcases List.mem_append.1 hp with h | h
        · exact (hroot.2 p h).2.2.2
        · exact mem_splitSlash_no_slash ('.' :: n) p h
      have hres : resolvePath root ('.' :: n)
          = joinAbs (normalizeSegs (root ++ splitSlash ('.' :: n))) := rfl
      cases hstk : normalizeSegs (root ++ splitSlash ('.' :: n)) with
      | nil =>
        exfalso
        rw [hres, hstk] at hpre
        have hle := ( List.isPrefixOf_iff_prefix.1 hpre).length_le
        have h2 := joinAbs_length_ge_two root hroot
        have h1 : (joinAbs ([] : List Str)).length = 1 := rfl
        omega
      | cons s0 rest =>
        rw [hstk] at hstackgood
        have hjoin : resolvePath root ('.' :: n) = joinSegs (s0 :: rest) := by
          rw [hres, hstk, joinAbs_of_ne_nil _ (by simp)]
        have hps : pathSegs (joinSegs (s0 :: rest)) = s0 :: rest :=
          pathSegs_joinSegs (s0 :: rest) (by simp)
            (fun s hs => (hstackgood s hs).2.2.2)
        refine ⟨resolvePath root ('.' :: n), by rw [if_pos hpre], hpre, ?_, ?_⟩
        · rw [hjoin, hps]
          exact hstackgood
        · intro hcase
          unfold isDescendant
          rw [hjoin, hps]
          rcases hcase with hcase | hcase
          · -- the resolved path IS the root string: its segments are the root's
            rw [hjoin, joinAbs_of_ne_nil root hroot.1] at hcase
            have : s0 :: rest = root := by
              have h1 := congrArg pathSegs hcase
              rw [hps, pathSegs_joinSegs root hroot.1
                (fun s hs => (hroot.2 s hs).2.2.2)] at h1
              exact h1
            rw [this]
            exact List.isPrefixOf_iff_prefix.2 List.prefix_rfl
          · -- the prefix extends at a separator: segment-wise prefix follows
            obtain ⟨t, ht⟩ := List.isPrefixOf_iff_prefix.1 hcase
            rw [hjoin, joinAbs_of_ne_nil root hroot.1] at ht
            rw [List.append_assoc] at ht
            have hpfx : root <+: s0 :: rest := by
              refine joinSegs_prefix_of_eq root (s0 :: rest) t
                (fun s hs => (hroot.2 s hs).2.2.2)
                (fun s hs => (hstackgood s hs).2.2.2) ?_
              exact ht
            exact List.isPrefixOf_iff_prefix.2 hpfx
    · right; left
      rw [if_neg hpre]

/-- C1 witness: the benign path `/a.txt` against the root `/srv/public`
instantiates the amended confinement statement. -/
theorem c1_witness :
    validRoot root0 ∧
    ((parseAndResolvePath root0 (asciiStr "/a.txt")).status = some 400 ∨
     (parseAndResolvePath root0 (asciiStr "/a.txt")).status = some 403 ∨
     ∃ a, (parseAndResolvePath root0 (asciiStr "/a.txt")).absPath = some a ∧
       (joinAbs root0).isPrefixOf a = true ∧
       (∀ s ∈ pathSegs a, goodSeg s) ∧
       ((a = joinAbs root0 ∨ (joinAbs root0 ++ ['/']).isPrefixOf a = true) →
         isDescendant root0 a = true)) :=
  ⟨by decide, c1_resolver_prefix_confinement root0 (asciiStr "/a.txt") (by decide)⟩

/-! ### basename / dirname / extension lemmas under the resolver's paths -/

theorem takeWhile_append_all {α : Type} (p : α → Bool) (l1 l2 : List α)
    (h : ∀ x ∈ l1, p x = true) :
    (l1 ++ l2).takeWhile p = l1 ++ l2.takeWhile p := by
  induction l1 with
  | nil => simp
  | cons a l ih =>
    rw [List.cons_append, List.takeWhile_cons, if_pos (h a (List.mem_cons_self a l)),
      ih (fun x hx => h x (List.mem_cons_of_mem a hx)), List.cons_append]

theorem dropWhile_append_all {α : Type} (p : α → Bool) (l1 l2 : List α)
    (h : ∀ x ∈ l1, p x = true) :
    (l1 ++ l2).dropWhile p = l2.dropWhile p := by
  induction l1 with
  | nil => simp
  | cons a l ih =>
    rw [List.cons_append, List.dropWhile_cons, if_pos (h a (List.mem_cons_self a l)),
      ih (fun x hx => h x (List.mem_cons_of_mem a hx))]

theorem basenameOf_append (p s : Str) (h : '/' ∉ s) :
    basenameOf (p ++ '/' :: s) = s := by
  have hall : ∀ x ∈ s.reverse, (fun c => decide (c ≠ '/')) x = true := by
    intro x hx
    have hxne : x ≠ '/' := fun hx2 => h (hx2 ▸ List.mem_reverse.1 hx)
    exact decide_eq_true hxne
  unfold basenameOf
  rw [List.reverse_append, List.reverse_cons, List.append_assoc, List.singleton_append,
    takeWhile_append_all _ s.reverse _ hall,
    List.takeWhile_cons, if_neg (by simp), List.append_nil, List.reverse_reverse]

theorem dirname_append (p s : Str) (hp : p ≠ []) (h : '/' ∉ s) :
    dirname (p ++ '/' :: s) = p := by
  have hall : ∀ x ∈ s.reverse, (fun c => decide (c ≠ '/')) x = true := by
    intro x hx
    have hxne : x ≠ '/' := fun hx2 => h (hx2 ▸ List.mem_reverse.1 hx)
    exact decide_eq_true hxne
  have hcut : ((p ++ '/' :: s).reverse.dropWhile
      (fun c => decide (c ≠ '/'))).reverse.dropLast = p := by
    rw [List.reverse_append, List.reverse_cons, List.append_assoc, List.singleton_append,
      dropWhile_append_all _ s.reverse _ hall,
      List.dropWhile_cons, if_neg (by simp), List.reverse_cons, List.reverse_reverse,
      List.dropLast_concat]
  unfold dirname
  rw [hcut]
  simp only [if_neg hp]

theorem guessContentType_txt (p : Str) (hbase : basenameOf p = asciiStr "foo.txt") :
    guessContentType p = asciiStr "text/plain; charset=utf-8" := by
  unfold guessContentType extname
  rw [hbase]
  decide

/-! ### Resolution of the concrete path `/foo.txt` -/

theorem resolver_foo_txt (root : List Str) (hroot : validRoot root) :
    parseAndResolvePath root (asciiStr "/foo.txt")
      = ⟨some (joinAbs root ++ asciiStr "/foo.txt"), none⟩ := by
  have hgood : ∀ x ∈ root, x ≠ [] ∧ x ≠ ['.'] ∧ x ≠ ['.', '.'] :=
    fun x hx => ⟨(hroot.2 x hx).1, (hroot.2 x hx).2.1, (hroot.2 x hx).2.2.1⟩
  have habs : resolvePath root ('.' :: asciiStr "/foo.txt")
      = joinAbs root ++ asciiStr "/foo.txt" := by
    unfold resolvePath
    have hstack : normalizeSegs (root ++ splitSlash ('.' :: asciiStr "/foo.txt"))
        = root ++ [asciiStr "foo.txt"] := by
      rw [show splitSlash ('.' :: asciiStr "/foo.txt")
            = [['.'], asciiStr "foo.txt"] from by decide]
      unfold normalizeSegs
      rw [show root ++ [['.'], asciiStr "foo.txt"]
            = (root ++ [['.']]) ++ [asciiStr "foo.txt"] from by simp,
        List.foldl_append, List.foldl_append, foldl_normStep_of_good root [] hgood,
        List.nil_append]
      show normStep (normStep root ['.']) (asciiStr "foo.txt")
          = root ++ [asciiStr "foo.txt"]
      rw [normStep_dot root]
      unfold normStep
      rw [if_neg (by decide), if_neg (by decide)]
    rw [hstack, joinAbs_of_ne_nil _ (by simp), joinAbs_of_ne_nil root hroot.1,
      joinSegs_append,
      show joinSegs [asciiStr "foo.txt"] = asciiStr "/foo.txt" from by decide]
  rw [resolver_decode_some root (asciiStr "/foo.txt") (asciiStr "/foo.txt") (by decide),
    show (if asciiStr "/foo.txt" = ['/'] then asciiStr "/index.html"
          else asciiStr "/foo.txt") = asciiStr "/foo.txt" from by decide,
    habs, if_pos ( List.isPrefixOf_iff_prefix.2 (List.prefix_append _ _))]

theorem getHeader_ct_cl (now : Str) (st : Nat) (g d : Str) (b : List Nat) :
    getHeader
        (send now st
          [(asciiStr "Content-Type", g), (asciiStr "Content-Length", d)] b)
        (asciiStr "Content-Type") = some g ∧
    getHeader
        (send now st
          [(asciiStr "Content-Type", g), (asciiStr "Content-Length", d)] b)
        (asciiStr "Content-Length") = some d :=
  ⟨rfl, rfl⟩

/-- C5: a successful PUT of body `B` to `/foo.txt` (the parent — the
Served Root itself — existing as a directory) followed by a GET of the
same path answers 200 with body exactly `B`, `Content-Type`
`text/plain; charset=utf-8` (the table entry for `.txt`), and
`Content-Length` equal to the byte length of `B`. -/
theorem c5_put_get_roundtrip (root : List Str) (fs : FS) (now now2 : Str) (B : List Nat)
    (hroot : validRoot root)
    (hparent : isDirAt fs (joinAbs root) = true) :
    (handler root
        (handler root fs now (asciiStr "PUT") (asciiStr "/foo.txt") (some B) true true).2
        now2 (asciiStr "GET") (asciiStr "/foo.txt") none true true).1.status = 200 ∧
    (handler root
        (handler root fs now (asciiStr "PUT") (asciiStr "/foo.txt") (some B) true true).2
        now2 (asciiStr "GET") (asciiStr "/foo.txt") none true true).1.body = B ∧
    getHeader (handler root
        (handler root fs now (asciiStr "PUT") (asciiStr "/foo.txt") (some B) true true).2
        now2 (asciiStr "GET") (asciiStr "/foo.txt") none true true).1
        (asciiStr "Content-Type") = some (asciiStr "text/plain; charset=utf-8") ∧
    getHeader (handler root
        (handler root fs now (asciiStr "PUT") (asciiStr "/foo.txt") (some B) true true).2
        now2 (asciiStr "GET") (asciiStr "/foo.txt") none true true).1
        (asciiStr "Content-Length") = some (Nat.toDigits 10 B.length) := by
  have hres := resolver_foo_txt root hroot
  set a := joinAbs root ++ asciiStr "/foo.txt" with ha
  have hanil : joinAbs root ≠ [] := joinAbs_ne_nil root
  have hsplit : a = joinAbs root ++ '/' :: asciiStr "foo.txt" := rfl
  have hdirname : dirname a = joinAbs root := by
    rw [hsplit]
    exact dirname_append (joinAbs root) (asciiStr "foo.txt") hanil (by decide)
  have hput : handler root fs now (asciiStr "PUT") (asciiStr "/foo.txt") (some B) true true
      = (send now (if isFileAt fs a then 200 else 201) ctPlain [], fsWrite fs a B) := by
    rw [handler_ok root fs now (asciiStr "PUT") (asciiStr "/foo.txt") (some B) true true
        a hres, if_neg (by decide), if_pos rfl]
    unfold handlePut
    rw [if_neg (by simp [hdirname, hparent])]
    rfl
  have hfs2 : (handler root fs now (asciiStr "PUT") (asciiStr "/foo.txt")
      (some B) true true).2 = fsWrite fs a B := by
    rw [hput]
  have hget : (handler root (fsWrite fs a B) now2 (asciiStr "GET") (asciiStr "/foo.txt")
      none true true).1
      = send now2 200
        [(asciiStr "Content-Type", guessContentType a),
         (asciiStr "Content-Length", Nat.toDigits 10 B.length)] B := by
    rw [handler_ok root (fsWrite fs a B) now2 (asciiStr "GET") (asciiStr "/foo.txt")
        none true true a hres, if_pos rfl]
    show handleGet (fsWrite fs a B) now2 a true = _
    unfold handleGet
    rw [show fsWrite fs a B a = some (.file B) from by unfold fsWrite; rw [if_pos rfl]]
    rfl
  have hbase : basenameOf a = asciiStr "foo.txt" := by
    rw [hsplit]
    exact basenameOf_append (joinAbs root) (asciiStr "foo.txt") (by decide)
  have hct : guessContentType a = asciiStr "text/plain; charset=utf-8" :=
    guessContentType_txt a hbase
  rw [hfs2, hget]
  refine ⟨rfl, rfl, ?_, ?_⟩
  · rw [(getHeader_ct_cl now2 200 (guessContentType a) (Nat.toDigits 10 B.length) B).1, hct]
  · exact (getHeader_ct_cl now2 200 (guessContentType a) (Nat.toDigits 10 B.length) B).2

/-- C5 witness: body `hi` against the concrete root `/srv/public`. -/
theorem c5_witness :
    validRoot root0 ∧
    isDirAt fsRootOnly (joinAbs root0) = true ∧
    ((handler root0
        (handler root0 fsRootOnly [] (asciiStr "PUT") (asciiStr "/foo.txt")
          (some (asciiBytes "hi")) true true).2
        [] (asciiStr "GET") (asciiStr "/foo.txt") none true true).1.status = 200 ∧
     (handler root0
        (handler root0 fsRootOnly [] (asciiStr "PUT") (asciiStr "/foo.txt")
          (some (asciiBytes "hi")) true true).2
        [] (asciiStr "GET") (asciiStr "/foo.txt") none true true).1.body
        = asciiBytes "hi" ∧
     getHeader (handler root0
        (handler root0 fsRootOnly [] (asciiStr "PUT") (asciiStr "/foo.txt")
          (some (asciiBytes "hi")) true true).2
        [] (asciiStr "GET") (asciiStr "/foo.txt") none true true).1
        (asciiStr "Content-Type") = some (asciiStr "text/plain; charset=utf-8") ∧
     getHeader (handler root0
        (handler root0 fsRootOnly [] (asciiStr "PUT") (asciiStr "/foo.txt")
          (some (asciiBytes "hi")) true true).2
        [] (asciiStr "GET") (asciiStr "/foo.txt") none true true).1
        (asciiStr "Content-Length") = some (Nat.toDigits 10 (asciiBytes "hi").length)) :=
  ⟨by decide, by decide,
   c5_put_get_roundtrip root0 fsRootOnly [] [] (asciiBytes "hi") (by decide) (by decide)⟩

/-! ### Header discipline of `send` -/

/-- Every `Content-Length` entry of a header object agrees with the body
byte length (vacuously true when the caller set none — `send` then
defaults it). -/
def clOk (hs : List (Str × Str)) (b : List Nat) : Prop :=
  ∀ e ∈ hs, e.1 = asciiStr "Content-Length" → e.2 = Nat.toDigits 10 b.length

theorem clOk_ctPlain (b : List Nat) : clOk ctPlain b := by
  intro e he hk
  rw [List.mem_singleton.1 he] at hk
  exact absurd hk (by decide)

theorem clOk_getPair (g : Str) (data : List Nat) :
    clOk [(asciiStr "Content-Type", g),
      (asciiStr "Content-Length", Nat.toDigits 10 data.length)] data := by
  intro e he hk
  rcases List.mem_cons.1 he with he | he
  · rw [he] at hk
    exact absurd (show asciiStr "Content-Type" = asciiStr "Content-Length" from hk)
      (by decide)
  · rw [List.mem_singleton.1 he]

theorem clOk_delPair :
    clOk [(asciiStr "Content-Type", asciiStr "text/plain; charset=utf-8"),
      (asciiStr "Content-Length", asciiStr "0")] [] := by
  intro e he hk
  rcases List.mem_cons.1 he with he | he
  · rw [he] at hk
    exact absurd (show asciiStr "Content-Type" = asciiStr "Content-Length" from hk)
      (by decide)
  · rw [List.mem_singleton.1 he]
    decide

theorem find?_pred_true {α : Type} (p : α → Bool) (l : List α) (a : α)
    (h : l.find? p = some a) : p a = true := List.find?_some h

theorem getHeader_send_date (now : Str) (st : Nat) (hs : List (Str × Str)) (b : List Nat) :
    getHeader (send now st hs b) (asciiStr "Date") = some now := rfl

theorem getHeader_send_conn (now : Str) (st : Nat) (hs : List (Str × Str)) (b : List Nat) :
    getHeader (send now st hs b) (asciiStr "Connection") = some (asciiStr "close") := rfl

theorem send_ct_exists (now : Str) (st : Nat) (hs : List (Str × Str)) (b : List Nat) :
    ∃ v, getHeader (send now st hs b) (asciiStr "Content-Type") = some v := by
  set hs1 := withDefault hs (asciiStr "Content-Length") (Nat.toDigits 10 b.length) with hhs1
  set hs2 := withDefault hs1 (asciiStr "Content-Type")
    (asciiStr "text/plain; charset=utf-8") with hhs2
  have hmem : ∃ e ∈ hs2, e.1 = asciiStr "Content-Type" := by
    rw [hhs2]
    unfold withDefault
    split
    · rename_i hany
      obtain ⟨e, he, hp⟩ := List.any_eq_true.1 hany
      exact ⟨e, he, of_decide_eq_true hp⟩
    · exact ⟨_, List.mem_append_right _ (List.mem_cons_self _ _), rfl⟩
  obtain ⟨e, he, hek⟩ := hmem
  have hsome : (hs2.find? (fun h => decide (h.1 = asciiStr "Content-Type"))).isSome :=
    List.find?_isSome.2 ⟨e, he, decide_eq_true hek⟩
  obtain ⟨e2, hfind⟩ := Option.isSome_iff_exists.1 hsome
  refine ⟨e2.2, ?_⟩
  have hred : getHeader (send now st hs b) (asciiStr "Content-Type")
      = (hs2.find? (fun h => decide (h.1 = asciiStr "Content-Type"))).map
          (fun h => h.2) := rfl
  rw [hred, hfind]
  rfl

theorem send_cl_exact (now : Str) (st : Nat) (hs : List (Str × Str)) (b : List Nat)
    (h : clOk hs b) :
    getHeader (send now st hs b) (asciiStr "Content-Length")
      = some (Nat.toDigits 10 b.length) := by
  set hs1 := withDefault hs (asciiStr "Content-Length") (Nat.toDigits 10 b.length) with hhs1
  have hall1 : ∀ e ∈ hs1, e.1 = asciiStr "Content-Length"
      → e.2 = Nat.toDigits 10 b.length := by
    rw [hhs1]
    unfold withDefault
    split
    · exact h
    · intro e he hk
      rcases List.mem_append.1 he with he | he
      · exact h e he hk
      · rw [List.mem_singleton.1 he]
  have hmem1 : ∃ e ∈ hs1, e.1 = asciiStr "Content-Length" := by
    rw [hhs1]
    unfold withDefault
    split
    · rename_i hany
      obtain ⟨e, he, hp⟩ := List.any_eq_true.1 hany
      exact ⟨e, he, of_decide_eq_true hp⟩
    · exact ⟨_, List.mem_append_right _ (List.mem_cons_self _ _), rfl⟩
  set hs2 := withDefault hs1 (asciiStr "Content-Type")
    (asciiStr "text/plain; charset=utf-8") with hhs2
  have hall2 : ∀ e ∈ hs2, e.1 = asciiStr "Content-Length"
      → e.2 = Nat.toDigits 10 b.length := by
    rw [hhs2]
    unfold withDefault
    split
    · exact hall1
    · intro e he hk
      rcases List.mem_append.1 he with he | he
      · exact hall1 e he hk
      · rw [List.mem_singleton.1 he] at hk
        exact absurd
          (show asciiStr "Content-Type" = asciiStr "Content-Length" from hk) (by decide)
  have hmem2 : ∃ e ∈ hs2, e.1 = asciiStr "Content-Length" := by
    obtain ⟨e, he, hk⟩ := hmem1
    refine ⟨e, ?_, hk⟩
    rw [hhs2]
    unfold withDefault
    split
    · exact he
    · exact List.mem_append_left _ he
  obtain ⟨e, he, hk⟩ := hmem2
  have hsome : (hs2.find? (fun h => decide (h.1 = asciiStr "Content-Length"))).isSome :=
    List.find?_isSome.2 ⟨e, he, decide_eq_true hk⟩
  obtain ⟨e2, hfind⟩ := Option.isSome_iff_exists.1 hsome
  have hred : getHeader (send now st hs b) (asciiStr "Content-Length")
      = (hs2.find? (fun h => decide (h.1 = asciiStr "Content-Length"))).map
          (fun h => h.2) := rfl
  have hp2 := find?_pred_true (fun h => decide (h.1 = asciiStr "Content-Length"))
    hs2 e2 hfind
  have he2k : e2.1 = asciiStr "Content-Length" := of_decide_eq_true hp2
  have he2v := hall2 e2 (List.mem_of_find?_eq_some hfind) he2k
  rw [hred, hfind]
  show some e2.2 = some (Nat.toDigits 10 b.length)
  rw [he2v]

/-! ### Response shapes of the handlers -/

theorem handleGet_shape (fs : FS) (now a : Str) (readOk : Bool) :
    ∃ st hs b, handleGet fs now a readOk = send now st hs b ∧ clOk hs b := by
  unfold handleGet
  cases hfa : fs a with
  | none => exact ⟨404, ctPlain, _, rfl, clOk_ctPlain _⟩
  | some node =>
    cases node with
    | dir => exact ⟨404, ctPlain, _, rfl, clOk_ctPlain _⟩
    | file data =>
      cases readOk with
      | false => exact ⟨500, ctPlain, _, rfl, clOk_ctPlain _⟩
      | true =>
        exact ⟨200, [(asciiStr "Content-Type", guessContentType a),
          (asciiStr "Content-Length", Nat.toDigits 10 data.length)], data, rfl,
          clOk_getPair (guessContentType a) data⟩

theorem handlePut_shape (fs : FS) (now a : Str) (bodyResult : Option (List Nat))
    (writeOk : Bool) :
    ∃ st hs b, (handlePut fs now a bodyResult writeOk).1 = send now st hs b ∧ clOk hs b := by
  unfold handlePut
  by_cases hpar : isDirAt fs (dirname a) = true
  · rw [if_neg (by simp [hpar])]
    cases bodyResult with
    | none => exact ⟨500, ctPlain, _, rfl, clOk_ctPlain _⟩
    | some body =>
      cases writeOk with
      | false => exact ⟨500, ctPlain, _, rfl, clOk_ctPlain _⟩
      | true =>
        exact ⟨if isFileAt fs a then 200 else 201, ctPlain, [], rfl, clOk_ctPlain _⟩
  · rw [if_pos (by simp [hpar])]
    exact ⟨404, ctPlain, _, rfl, clOk_ctPlain _⟩

theorem handleDelete_shape (fs : FS) (now a : Str) :
    ∃ st hs b, (handleDelete fs now a).1 = send now st hs b ∧ clOk hs b := by
  unfold handleDelete
  cases hu : unlinkOutcome fs a with
  | enoent => exact ⟨404, ctPlain, _, rfl, clOk_ctPlain _⟩
  | otherErr => exact ⟨500, ctPlain, _, rfl, clOk_ctPlain _⟩
  | ok =>
    exact ⟨204, [(asciiStr "Content-Type", asciiStr "text/plain; charset=utf-8"),
      (asciiStr "Content-Length", asciiStr "0")], [], rfl, clOk_delPair⟩

theorem handler_shape (root : List Str) (fs : FS) (now method rawUrl : Str)
    (bodyResult : Option (List Nat)) (readOk writeOk : Bool) :
    ∃ st hs b, (handler root fs now method rawUrl bodyResult readOk writeOk).1
        = send now st hs b ∧ clOk hs b := by
  rcases resolveResult_cases root rawUrl with h | h | ⟨a, h⟩
  · rw [handler_400 root fs now method rawUrl bodyResult readOk writeOk h]
    exact ⟨400, ctPlain, _, rfl, clOk_ctPlain _⟩
  · rw [handler_403 root fs now method rawUrl bodyResult readOk writeOk h]
    exact ⟨403, ctPlain, _, rfl, clOk_ctPlain _⟩
  · rw [handler_ok root fs now method rawUrl bodyResult readOk writeOk a h]
    by_cases hG : method = asciiStr "GET"
    · rw [if_pos hG]
      exact handleGet_shape fs now a readOk
    · rw [if_neg hG]
      by_cases hP : method = asciiStr "PUT"
      · rw [if_pos hP]
        exact handlePut_shape fs now a bodyResult writeOk
      · rw [if_neg hP]
        by_cases hD : method = asciiStr "DELETE"
        · rw [if_pos hD]
          exact handleDelete_shape fs now a
        · rw [if_neg hD]
          exact ⟨405, ctPlain, _, rfl, clOk_ctPlain _⟩

theorem handlerRO_shape (root : List Str) (fs : FS) (now method rawUrl : Str)
    (readOk : Bool) :
    ∃ st v rest b, handlerRO root fs now method rawUrl readOk
      = sendRO now st ((asciiStr "Content-Type", v) :: rest) b := by
  simp only [handlerRO]
  by_cases hm : method ≠ asciiStr "GET"
  · rw [if_pos hm]
    exact ⟨405, _, [], _, rfl⟩
  · rw [if_neg hm]
    cases hd : decodePct (if jsTrim (rawUrl.takeWhile (fun c => c ≠ '?')) = ['/']
        then asciiStr "/index.html"
        else jsTrim (rawUrl.takeWhile (fun c => c ≠ '?'))) with
    | none =>
      exact ⟨400, _, [], _, rfl⟩
    | some decodedPath =>
      dsimp only
      by_cases hpre : (joinAbs root).isPrefixOf
          (resolvePath root ('.' :: decodedPath)) = true
      · rw [if_neg (by simp [hpre])]
        cases hfa : fs (resolvePath root ('.' :: decodedPath)) with
        | none =>
          exact ⟨404, _, [], _, rfl⟩
        | some node =>
          cases node with
          | dir => exact ⟨404, _, [], _, rfl⟩
          | file data =>
            cases readOk with
            | false => exact ⟨500, _, [], _, rfl⟩
            | true =>
              exact ⟨200, guessContentType (resolvePath root ('.' :: decodedPath)),
                [(asciiStr "Content-Length", Nat.toDigits 10 data.length)], data, rfl⟩
      · rw [if_pos (by simp [hpre])]
        exact ⟨403, _, [], _, rfl⟩

/-- C8 counterexample: the read-only variant's `send` sets no
`Content-Length` default, so its 405 response to a PUT carries a
nonempty body but no `Content-Length` header — the claim fails for that
variant's responses. -/
theorem c8_counterexample :
    getHeader (handlerRO root0 fsEmpty [] (asciiStr "PUT") (asciiStr "/x") true)
        (asciiStr "Content-Length") = none ∧
    (handlerRO root0 fsEmpty [] (asciiStr "PUT") (asciiStr "/x") true).body
        = asciiBytes "Method Not Allowed\n" := by
  refine ⟨by decide, by decide⟩

/-- C8 (amended): every response of the full server carries `Date`,
`Connection: close`, a `Content-Type` (defaulted to
`text/plain; charset=utf-8` when not set by the call site), and a
`Content-Length` equal to the byte length of the response body; the
read-only variant's responses carry `Date`, `Connection: close` and a
`Content-Type`, but its `send` sets no `Content-Length` itself. -/
theorem c8_response_headers (root : List Str) (fs : FS) (now method rawUrl : Str)
    (bodyResult : Option (List Nat)) (readOk writeOk : Bool) :
    getHeader (handler root fs now method rawUrl bodyResult readOk writeOk).1
        (asciiStr "Date") = some now ∧
    getHeader (handler root fs now method rawUrl bodyResult readOk writeOk).1
        (asciiStr "Connection") = some (asciiStr "close") ∧
    (∃ v, getHeader (handler root fs now method rawUrl bodyResult readOk writeOk).1
        (asciiStr "Content-Type") = some v) ∧
    getHeader (handler root fs now method rawUrl bodyResult readOk writeOk).1
        (asciiStr "Content-Length")
      = some (Nat.toDigits 10
          (handler root fs now method rawUrl bodyResult readOk writeOk).1.body.length) ∧
    getHeader (handlerRO root fs now method rawUrl readOk) (asciiStr "Date") = some now ∧
    getHeader (handlerRO root fs now method rawUrl readOk) (asciiStr "Connection")
      = some (asciiStr "close") ∧
    (∃ v, getHeader (handlerRO root fs now method rawUrl readOk)
        (asciiStr "Content-Type") = some v) := by
  obtain ⟨st, hs, b, heq, hcl⟩ := handler_shape root fs now method rawUrl bodyResult
    readOk writeOk
  have hbody : (handler root fs now method rawUrl bodyResult readOk writeOk).1.body = b := by
    rw [heq]
    rfl
  obtain ⟨st2, v2, rest2, b2, heq2⟩ := handlerRO_shape root fs now method rawUrl readOk
  refine ⟨?_, ?_, ?_, ?_, ?_, ?_, ?_⟩
  · rw [heq]
    exact getHeader_send_date now st hs b
  · rw [heq]
    exact getHeader_send_conn now st hs b
  · rw [heq]
    exact send_ct_exists now st hs b
  · rw [heq]
    show getHeader (send now st hs b) (asciiStr "Content-Length")
        = some (Nat.toDigits 10 b.length)
    exact send_cl_exact now st hs b hcl
  · rw [heq2]
    rfl
  · rw [heq2]
    rfl
  · rw [heq2]
    exact ⟨v2, rfl⟩

end FileServer
